import Mathlib

/-!
Verification of the WheelsUp document extraction and quality assessment engine.

This file gives a shallow embedding of the Python sources

  * src/etl/utils/text_cleaning.py        (HTMLCleaner, TextQualityChecker)
  * src/etl/pipelines/extract/pdf_to_text.py   (PDFTextExtractor)
  * src/etl/pipelines/extract/html_to_text.py  (TextExtractionPipeline)

and proves or refutes the specification claims about them.

Modelling conventions:

  * Python strings are `List Char` (abbreviated `Str`).
  * Python floats are modelled as exact rationals `ℚ`; every arithmetic
    expression in the embedded code is a small exact formula, so no
    floating-point rounding behaviour is relevant to the claims.
  * Calls into external libraries (BeautifulSoup, pdfminer, PyMuPDF,
    pytesseract, hashlib, the unicodedata NFKC normalizer, the UTF-8 codec)
    are modelled as explicit oracle arguments; everything the repository
    itself computes is translated directly from the source.
  * `Char.isAlpha` / `Char.isDigit` play the role of the Python character
    classification on the ASCII fragment; Python byte strings are `List ℕ`.
-/

set_option maxRecDepth 100000

namespace WheelsUp

/-- Python strings are modelled as lists of characters. -/
abbrev Str := List Char

/-- Kernel-computable maximum on the rationals, used for Python `max`
(the `Max ℚ` instance of the order library does not reduce under `decide`). -/
def qmax (a b : ℚ) : ℚ := if a ≤ b then b else a

/-- Kernel-computable minimum on the rationals, used for Python `min`. -/
def qmin (a b : ℚ) : ℚ := if b ≤ a then b else a

/-- Kernel-computable absolute value on the rationals, used for Python `abs`. -/
def qabs (a : ℚ) : ℚ := if a ≤ 0 then -a else a

/-- Whitespace as recognised by Python `str.strip()` / the regex class
backslash-s on ASCII text: space, tab, newline, carriage return, vertical
tab and form feed. -/
def isSpaceChar (c : Char) : Bool :=
  c = ' ' || c = '\t' || c = '\n' || c = '\x0d' || c = '\x0b' || c = '\x0c'

/-- Characters matched by the regex class backslash-w (word characters):
alphanumerics and the underscore (ASCII fragment). -/
def isWordChar (c : Char) : Bool :=
  c.isAlphanum || c = '_'

/-- Python `c.isalpha()` on the ASCII fragment. -/
def isAlphaChar (c : Char) : Bool := c.isAlpha

/-- Characters matched by the character class `[.!?]` used by the
sentence-splitting regex in `_calculate_quality_metrics`. -/
def isSentencePunct (c : Char) : Bool :=
  c = '.' || c = '!' || c = '?'

/-- Characters matched by the character class `[ \t]` of the
space-collapsing regex. -/
def spTab (c : Char) : Bool :=
  c = ' ' || c = '\t'

/-- Python `text.strip()`: drop leading and trailing whitespace. -/
def pythonStrip (l : Str) : Str :=
  List.rdropWhile isSpaceChar (List.dropWhile isSpaceChar l)

/-- Number of characters of `l` for which `c.isalpha()` holds. -/
def alphaCount (l : Str) : ℕ :=
  (l.filter isAlphaChar).length

/-- Maximal runs of characters satisfying `p`; `runsOf isWordChar` is
`re.findall` of one-or-more word characters, the token list used for all
word statistics in the source. -/
def runsOf (p : Char → Bool) : Str → List Str
  | [] => []
  | [a] => if p a then [[a]] else []
  | a :: b :: t =>
    let r := runsOf p (b :: t)
    if p a then
      if p b then
        match r with
        | [] => [[a]]
        | h :: rt => (a :: h) :: rt
      else [a] :: r
    else r

/-- Number of maximal runs of characters satisfying `p`.  `re.split` on
one-or-more `p`-characters returns exactly `countRuns p t + 1` pieces, which
is the sentence count used by `_calculate_quality_metrics`. -/
def countRuns (p : Char → Bool) : Str → ℕ
  | [] => 0
  | [a] => if p a then 1 else 0
  | a :: b :: t =>
    (if p a && !(p b) then 1 else 0) + countRuns p (b :: t)

/-- Quality metrics record from `text_cleaning.py` (`TextQualityMetrics`
dataclass); all fields default to zero / false. -/
structure TextQualityMetrics where
  total_chars : ℕ := 0
  total_words : ℕ := 0
  avg_word_length : ℚ := 0
  readability_score : ℚ := 0
  has_meaningful_content : Bool := false
  language_confidence : ℚ := 0
deriving DecidableEq

/-- Embedding of `HTMLCleaner._calculate_quality_metrics` from
`text_cleaning.py` (lines 244-279): word statistics over the regex word
tokens, a readability score `max(0, 100 - words_per_sentence)`, the
meaningful-content predicate, and the fraction of purely alphabetic word
tokens as language confidence. -/
def calculate_quality_metrics (text : Str) : TextQualityMetrics :=
  if text = [] then {} else
  let ws := runsOf isWordChar text
  let total_chars := text.length
  let total_words := ws.length
  let avg_word_length : ℚ :=
    if ws = [] then 0 else ((ws.map List.length).sum : ℚ) / total_words
  let sentences : ℕ := countRuns isSentencePunct text + 1
  let avg_words_per_sentence : ℚ := (total_words : ℚ) / sentences
  let readability_score : ℚ := qmax 0 (100 - avg_words_per_sentence)
  let has_meaningful_content : Bool :=
    decide (50 < total_words) && decide ((3 : ℚ) < avg_word_length) &&
      decide ((20 : ℚ) < readability_score)
  let english_words := (ws.filter (fun w => w.all isAlphaChar)).length
  let language_confidence : ℚ :=
    if ws = [] then 0 else (english_words : ℚ) / total_words
  { total_chars := total_chars
    total_words := total_words
    avg_word_length := avg_word_length
    readability_score := readability_score
    has_meaningful_content := has_meaningful_content
    language_confidence := language_confidence }

/-- Embedding of `TextQualityChecker.get_quality_score` from
`text_cleaning.py` (lines 341-361).  Note the early return `0.0` when
`total_words` is falsy. -/
def get_quality_score (m : TextQualityMetrics) : ℚ :=
  if m.total_words = 0 then 0 else
  let word_score : ℚ := qmin 100 ((m.total_words : ℚ) / 2)
  let readability_score : ℚ := qmax 0 (qmin 100 m.readability_score)
  let language_score : ℚ := m.language_confidence * 100
  word_score * 0.4 + readability_score * 0.3 + language_score * 0.3

/-- The quality-score formula exactly as the specification words it
(section 4.1), with no early return: a weighted blend of the saturating
word score, the clamped readability score and the scaled language
confidence.  This is the spec-side definition used to compare against
`get_quality_score`. -/
def specQualityScore (m : TextQualityMetrics) : ℚ :=
  0.4 * qmin 100 ((m.total_words : ℚ) / 2) +
    0.3 * qmax 0 (qmin 100 m.readability_score) +
    0.3 * (m.language_confidence * 100)

/-! ## The shared whitespace-collapsing regexes

`_clean_text` (text_cleaning.py lines 196-242) and `_clean_extracted_text`
(pdf_to_text.py lines 351-379) both start with the same two substitutions:

  * newline, whitespace-run, newline, whitespace-run, one-or-more newlines
    is replaced by exactly two newlines, and
  * a run of spaces and tabs is replaced by a single space.

For the first regex, a greedy leftmost match inside a maximal whitespace run
containing at least three newlines spans from the first to the last newline
of the run, so the substitution rewrites exactly that segment to two
newlines and leaves runs with fewer newlines alone. -/

/-- Rewrite of one maximal whitespace run by the blank-line-collapsing
regex: if the run contains at least three newlines, the segment from its
first to its last newline is replaced by two newlines. -/
def transformWsRun (r : Str) : Str :=
  if 3 ≤ (r.filter (fun c => c = '\n')).length then
    r.takeWhile (fun c => !(c = '\n')) ++ '\n' :: '\n' ::
      List.rtakeWhile (fun c => !(c = '\n')) r
  else r

/-- Decomposition of a string into its maximal runs of characters agreeing
on the predicate `p`; each run is tagged with the common value of `p` on
its characters.  Flattening the run contents gives back the string. -/
def groupRuns (p : Char → Bool) : Str → List (Bool × Str)
  | [] => []
  | [a] => [(p a, [a])]
  | a :: b :: t =>
    match groupRuns p (b :: t) with
    | [] => [(p a, [a])]
    | (fb, run) :: rest =>
      if p a = fb then (fb, a :: run) :: rest
      else (p a, [a]) :: (fb, run) :: rest

/-- Embedding of `re.sub` of the blank-line-collapsing regex: each maximal
whitespace run is rewritten by `transformWsRun`, all other characters are
kept. -/
def collapseNewlines (s : Str) : Str :=
  ((groupRuns isSpaceChar s).map
    (fun g => if g.1 then transformWsRun g.2 else g.2)).flatten

/-- Embedding of `re.sub` of the space-and-tab-collapsing regex: every
maximal run of spaces and tabs becomes a single space. -/
def collapseSpaces : Str → Str
  | [] => []
  | [c] => if spTab c then [' '] else [c]
  | a :: b :: t =>
    if spTab a && spTab b then collapseSpaces (b :: t)
    else (if spTab a then ' ' else a) :: collapseSpaces (b :: t)

/-- Python `text.split(sep)` for a one-character separator: split at every
occurrence, keeping empty pieces. -/
def splitOnChar (sep : Char) : Str → List Str
  | [] => [[]]
  | c :: cs =>
    let r := splitOnChar sep cs
    if c = sep then [] :: r
    else
      match r with
      | [] => [[c]]
      | h :: rt => (c :: h) :: rt

/-- Python `sep.join(parts)` for a one-character separator. -/
def intercalateChar (sep : Char) : List Str → Str
  | [] => []
  | [l] => l
  | l :: ls => l ++ sep :: intercalateChar sep ls

/-- Python `sep.join(parts)` for a multi-character separator. -/
def intercalateStr (sep : Str) : List Str → Str
  | [] => []
  | [l] => l
  | l :: ls => l ++ sep ++ intercalateStr sep ls

/-- Line filter of `HTMLCleaner._clean_text`: after stripping, a line is
kept unless it is empty, shorter than 10 characters, or longer than 20
characters with an alphabetic-character ratio below `0.3` (the float ratio
test is modelled by the exact rational comparison). -/
def keepLine (l : Str) : Bool :=
  if l = [] then false
  else if l.length < 10 then false
  else if (alphaCount l : ℚ) / (l.length : ℚ) < 0.3 ∧ 20 < l.length then false
  else true

/-- Kept lines of `HTMLCleaner._clean_text` after the collapsing
substitutions: split on newlines, strip each line, drop the lines rejected
by `keepLine`. -/
def cleanLines (t : Str) : List Str :=
  ((splitOnChar '\n' (collapseSpaces (collapseNewlines t))).map pythonStrip).filter keepLine

/-- Embedding of `HTMLCleaner._clean_text` (text_cleaning.py lines
196-242).  The call into `unicodedata.normalize` for NFKC is external
library code and is passed in as the `norm` argument; the rest — the two
collapsing substitutions, the line loop with its strip, length and
alphabetic-ratio filters, the newline join and the final strip — is
translated from the source. -/
def clean_text (norm : Str → Str) (text : Str) : Str :=
  if text = [] then []
  else pythonStrip (intercalateChar '\n' (cleanLines (norm text)))

/-- Full-match test of the regex of one-or-more digits used by the
page-number filter of `_clean_extracted_text`. -/
def isAllDigits (l : Str) : Bool :=
  !l.isEmpty && l.all (fun c => c.isDigit)

/-- Line filter of `PDFTextExtractor._clean_extracted_text`: after
stripping, a line is kept unless it is empty, shorter than 5 characters, or
a digits-only line of at most 4 characters. -/
def pdfKeepLine (l : Str) : Bool :=
  if l = [] then false
  else if l.length < 5 then false
  else if isAllDigits l ∧ l.length ≤ 4 then false
  else true

/-- Embedding of `PDFTextExtractor._clean_extracted_text` (pdf_to_text.py
lines 351-379): the same two collapsing substitutions as the HTML cleaner,
then a line loop with strip, a minimum length of 5 and a page-number
filter, then the newline join and a final strip.  There is no Unicode
normalization and no alphabetic-ratio filter on this path. -/
def clean_extracted_text (text : Str) : Str :=
  if text = [] then []
  else
    pythonStrip (intercalateChar '\n'
      (((splitOnChar '\n' (collapseSpaces (collapseNewlines text))).map pythonStrip).filter
        pdfKeepLine))

/-- Adjacent-character relation used to show the blank-line-collapsing
substitution is inert: no two adjacent whitespace characters one of which
is a newline. -/
def noNlPair (x y : Char) : Prop :=
  ¬(isSpaceChar x = true ∧ isSpaceChar y = true ∧ (x = '\n' ∨ y = '\n'))

/-- Adjacent-character relation used to show the space-collapsing
substitution is inert: no two adjacent space-or-tab characters. -/
def noSpacePair (x y : Char) : Prop :=
  ¬(spTab x = true ∧ spTab y = true)

/-- Shape of every line emitted by `_clean_text`: already stripped, kept by
the line filter, free of newlines and tabs, with no two adjacent
space-or-tab characters.  Such lines pass through a second cleaning
unchanged. -/
def GoodLine (l : Str) : Prop :=
  pythonStrip l = l ∧ keepLine l = true ∧ '\n' ∉ l ∧ '\t' ∉ l
    ∧ List.Chain' noSpacePair l

/-! ## PDF text extractor (`pdf_to_text.py`) -/

/-- Metadata record from the `PDFMetadata` dataclass; all fields default to
`None` / `0` / `False`. -/
structure PDFMetadata where
  title : Option Str := none
  author : Option Str := none
  subject : Option Str := none
  creator : Option Str := none
  producer : Option Str := none
  creation_date : Option Str := none
  modification_date : Option Str := none
  pages : ℕ := 0
  encrypted : Bool := false
  file_size : ℕ := 0
deriving DecidableEq

/-- Result record from the `PDFExtractionResult` dataclass.  The
`processing_time` field is wall-clock time and is not modelled. -/
structure PDFExtractionResult where
  text : Str
  metadata : PDFMetadata
  quality_metrics : TextQualityMetrics
  extraction_method : Str
  confidence_score : ℚ
  errors : List Str
deriving DecidableEq

/-- Constructor configuration of `PDFTextExtractor`: the OCR fallback flag
(already conjoined with OCR availability in `__init__`) and the minimum
confidence below which OCR is considered. -/
structure PdfConfig where
  ocr_fallback : Bool
  ocr_min_confidence : ℚ
deriving DecidableEq

/-- Defaults of `PDFTextExtractor.__init__`: `ocr_fallback=True`,
`ocr_min_confidence=60.0`. -/
def defaultPdfConfig : PdfConfig :=
  { ocr_fallback := true, ocr_min_confidence := 60 }

/-- Embedding of `PDFTextExtractor._parse_pdf_date` (pdf_to_text.py lines
393-415) on string inputs: empty input yields `None`; an input starting
with `D:` whose following fourteen characters contain at least eight is
sliced positionally into `YYYY-MM-DD HH:MM:SS` (missing hour, minute or
second fields default to `00`); anything else yields `None`.  The function
body never raises, so the surrounding `try/except` is invisible here; a
non-string (bytes) date value also yields `None` via the `isinstance`
check. -/
def parse_pdf_date (dateString : Str) : Option Str :=
  if dateString = [] then none
  else if dateString.take 2 = "D:".data then
    let datePart := (dateString.drop 2).take 14
    if 8 ≤ datePart.length then
      let year := datePart.take 4
      let month := (datePart.drop 4).take 2
      let day := (datePart.drop 6).take 2
      let hour := if 8 < datePart.length then (datePart.drop 8).take 2 else "00".data
      let minute := if 10 < datePart.length then (datePart.drop 10).take 2 else "00".data
      let second := if 12 < datePart.length then (datePart.drop 12).take 2 else "00".data
      some (year ++ '-' :: month ++ '-' :: day ++ ' ' :: hour ++ ':' ::
        minute ++ ':' :: second)
    else none
  else none

/-- Embedding of `PDFTextExtractor._calculate_text_confidence`
(pdf_to_text.py lines 311-343): zero for blank or wordless text, otherwise
a blend of a word-length score `max(0, 100 - |avg - 5| * 10)` and the
alphabetic-character ratio scaled to 100, clamped to `[0, 100]`. -/
def calculate_text_confidence (text : Str) : ℚ :=
  if text = [] ∨ pythonStrip text = [] then 0
  else
    let ws := runsOf isWordChar text
    let chars := text.length
    if ws = [] then 0
    else
      let avg_word_len : ℚ := ((ws.map List.length).sum : ℚ) / ws.length
      let alpha_ratio : ℚ := (alphaCount text : ℚ) / chars
      let word_len_score : ℚ := qmax 0 (100 - qabs (avg_word_len - 5) * 10)
      let alpha_score : ℚ := alpha_ratio * 100
      qmin 100 (qmax 0 (word_len_score * 0.4 + alpha_score * 0.6))

/-- Embedding of `PDFTextExtractor._merge_texts` (pdf_to_text.py lines
288-309): an empty side yields the other side; otherwise the side whose
quality metrics flag meaningful content wins, and ties go to the longer
text (to the direct text at equal length). -/
def merge_texts (direct_text ocr_text : Str) : Str :=
  if direct_text = [] then ocr_text
  else if ocr_text = [] then direct_text
  else
    let direct_quality := calculate_quality_metrics direct_text
    let ocr_quality := calculate_quality_metrics ocr_text
    if direct_quality.has_meaningful_content && !ocr_quality.has_meaningful_content then
      direct_text
    else if ocr_quality.has_meaningful_content && !direct_quality.has_meaningful_content then
      ocr_text
    else if ocr_text.length ≤ direct_text.length then direct_text
    else ocr_text

/-- The merge rule exactly as the specification words it (section 4.4,
step 5): prefer whichever text has meaningful content; if both or neither
qualify, prefer the longer string (the source resolves an exact tie in
favour of the direct text).  This is the spec-side definition compared
against `merge_texts`. -/
def specMergeRule (direct_text ocr_text : Str) : Str :=
  let dm := (calculate_quality_metrics direct_text).has_meaningful_content
  let om := (calculate_quality_metrics ocr_text).has_meaningful_content
  if dm ∧ ¬om then direct_text
  else if om ∧ ¬dm then ocr_text
  else if ocr_text.length ≤ direct_text.length then direct_text
  else ocr_text

/-- Embedding of `PDFTextExtractor._extract_metadata` (pdf_to_text.py lines
187-219).  The pdfminer parsing is external; the oracle argument is `none`
when the library raised, in which case the code logs a warning and returns
a default `PDFMetadata()` — without touching the errors list. -/
def extract_metadata (pdfminerOutcome : Option PDFMetadata) : PDFMetadata :=
  match pdfminerOutcome with
  | some m => m
  | none => {}

/-- Embedding of `PDFTextExtractor._extract_text_direct` (pdf_to_text.py
lines 221-239).  The pdfminer `extract_text` call is external; the oracle
argument is `none` when it raised, in which case the code logs a warning
and returns `("", 0.0)` — without touching the errors list.  On success
the confidence is `_calculate_text_confidence` of the extracted text. -/
def extract_text_direct (pdfminerText : Option Str) : Str × ℚ :=
  match pdfminerText with
  | some t => (t, calculate_text_confidence t)
  | none => ([], 0)

/-- Embedding of `PDFTextExtractor._extract_text_ocr` (pdf_to_text.py lines
241-286).  The per-page rasterisation and recognition are external; the
oracle argument gives each page's recognised text and mean word confidence,
or is `none` when OCR is unavailable or the library raised (the code then
logs a warning and returns `("", 0.0)` — without touching the errors
list).  The code caps work at the first 50 pages, joins page texts with a
blank line and averages page confidences. -/
def extract_text_ocr (tesseractPages : Option (List (Str × ℚ))) : Str × ℚ :=
  match tesseractPages with
  | none => ([], 0)
  | some pages =>
    let processed := pages.take 50
    let final_text := intercalateStr "\n\n".data (processed.map Prod.fst)
    let avg_confidence : ℚ :=
      if processed.length = 0 then 0
      else (processed.map Prod.snd).sum / processed.length
    (final_text, avg_confidence)

/-- Gate of the OCR fallback in `extract_from_pdf` (pdf_to_text.py lines
135-137): OCR runs only when the fallback is enabled, the direct confidence
is strictly below `ocr_min_confidence`, and the stripped direct text is
shorter than 1000 characters. -/
def ocrGate (cfg : PdfConfig) (direct_confidence : ℚ) (strippedDirectLen : ℕ) : Bool :=
  cfg.ocr_fallback && decide (direct_confidence < cfg.ocr_min_confidence) &&
    decide (strippedDirectLen < 1000)

/-- Embedding of `PDFTextExtractor.extract_from_pdf` (pdf_to_text.py lines
109-185) on its non-raising path: metadata, direct extraction, the gated
OCR fallback with the ocr / hybrid / direct selection, cleaning of the
selected text and final quality metrics.  The three oracle arguments stand
for the external pdfminer / PyMuPDF / tesseract calls; `errors` stays empty
on this path — only the top-level `except` handler (modelled separately by
the claims about it) ever appends to it. -/
def extract_from_pdf (cfg : PdfConfig) (pdfminerMeta : Option PDFMetadata)
    (pdfminerText : Option Str) (tesseractPages : Option (List (Str × ℚ))) :
    PDFExtractionResult :=
  let metadata := extract_metadata pdfminerMeta
  let direct := extract_text_direct pdfminerText
  let selected : Str × Str × ℚ :=
    if ocrGate cfg direct.2 (pythonStrip direct.1).length then
      let ocr := extract_text_ocr tesseractPages
      if direct.2 < ocr.2 then ("ocr".data, ocr.1, ocr.2)
      else if ocr.1 ≠ [] ∧ (pythonStrip direct.1).length < (pythonStrip ocr.1).length then
        ("hybrid".data, merge_texts direct.1 ocr.1, qmax direct.2 ocr.2)
      else ("direct".data, direct.1, direct.2)
    else ("direct".data, direct.1, direct.2)
  let final_text := clean_extracted_text selected.2.1
  { text := final_text
    metadata := metadata
    quality_metrics := calculate_quality_metrics final_text
    extraction_method := selected.1
    confidence_score := selected.2.2
    errors := [] }

/-! ## Extraction orchestrator (`html_to_text.py`) -/

/-- Python document content handed to `process_document`: either a text
string or a byte string. -/
inductive PyContent where
  | str (s : Str)
  | bytes (b : List ℕ)
deriving DecidableEq

/-- Dynamic value stored in `DocumentExtractionResult.errors`.  The
constructor is annotated `Optional[List[str]]`, but
`_process_html_document` passes a plain string on its failure path, so the
stored value can be either shape. -/
inductive ErrVal where
  | str (s : Str)
  | list (l : List Str)
deriving DecidableEq

/-- Python truthiness of an errors value: non-empty strings and non-empty
lists are truthy. -/
def errTruthy : ErrVal → Bool
  | .str s => !s.isEmpty
  | .list l => !l.isEmpty

/-- The `errors or []` coercion in `DocumentExtractionResult.__init__`:
`None` and falsy values are replaced by the empty list, anything truthy is
stored as passed. -/
def coerceErrors (errors : Option ErrVal) : ErrVal :=
  match errors with
  | none => .list []
  | some v => if errTruthy v then v else .list []

/-- Result record of `TextExtractionPipeline` (html_to_text.py lines
23-75).  The `metadata` dictionary, the wall-clock `processing_time` and
the `extraction_timestamp` are not modelled; no claim concerns them. -/
structure DocumentExtractionResult where
  document_id : Str
  source_name : Str
  url : Str
  document_type : Str
  extracted_text : Str
  title : Str
  quality_metrics : TextQualityMetrics
  extraction_method : Str
  confidence_score : ℚ
  errors : ErrVal
deriving DecidableEq

/-- Constructor of `DocumentExtractionResult` with its default arguments
(`title=""`, `quality_metrics=None`, `extraction_method=""`,
`confidence_score=0.0`, `errors=None`) and the `or`-coercions applied to
`quality_metrics` and `errors`. -/
def mkDocumentExtractionResult (document_id source_name url document_type : Str)
    (extracted_text : Str) (title : Str) (qm : Option TextQualityMetrics)
    (extraction_method : Str) (confidence_score : ℚ)
    (errors : Option ErrVal) : DocumentExtractionResult :=
  { document_id := document_id
    source_name := source_name
    url := url
    document_type := document_type
    extracted_text := extracted_text
    title := title
    quality_metrics := qm.getD {}
    extraction_method := extraction_method
    confidence_score := confidence_score
    errors := coerceErrors errors }

/-- Outcome of the BeautifulSoup-driven part of `HTMLCleaner.clean_html`:
either an exception with its message (caught by the function's handler), or
the parse products — the extracted title and the selected main-content
text — that the library-side steps produce before `_clean_text` runs. -/
inductive SoupOutcome where
  | fail (err : Str)
  | ok (title : Str) (mainContent : Str)

/-- Result dictionary of `HTMLCleaner.clean_html` (the `metadata` entry is
not modelled). -/
structure CleanHtmlResult where
  title : Str
  cleaned_text : Str
  quality_metrics : TextQualityMetrics
  extraction_success : Bool
  error : Option Str
deriving DecidableEq

/-- Embedding of `HTMLCleaner.clean_html` (text_cleaning.py lines 67-118):
on the success path the selected main content is cleaned with
`_clean_text` and measured with `_calculate_quality_metrics`; any exception
is caught and reported as `extraction_success=False` with empty text, zero
metrics and the exception message. -/
def clean_html (norm : Str → Str) (soup : SoupOutcome) : CleanHtmlResult :=
  match soup with
  | .fail e =>
    { title := []
      cleaned_text := []
      quality_metrics := {}
      extraction_success := false
      error := some e }
  | .ok title mainContent =>
    let cleaned := clean_text norm mainContent
    { title := title
      cleaned_text := cleaned
      quality_metrics := calculate_quality_metrics cleaned
      extraction_success := true
      error := none }

/-- Embedding of `TextExtractionPipeline._process_html_document`
(html_to_text.py lines 252-286).  On cleaning failure the errors argument
receives the raw error string (`clean_result.get('error', 'HTML cleaning
failed')`), not a list; `extraction_method` and `confidence_score` are left
at their constructor defaults (`""` and `0.0`). -/
def process_html_document (norm : Str → Str) (soup : SoupOutcome)
    (source_name url document_id : Str) : DocumentExtractionResult :=
  let clean_result := clean_html norm soup
  if !clean_result.extraction_success then
    mkDocumentExtractionResult document_id source_name url "html".data [] []
      (some clean_result.quality_metrics) [] 0
      (some (.str (clean_result.error.getD "HTML cleaning failed".data)))
  else
    let quality_score := get_quality_score clean_result.quality_metrics
    mkDocumentExtractionResult document_id source_name url "html".data
      clean_result.cleaned_text clean_result.title
      (some clean_result.quality_metrics) "html_cleaning".data quality_score none

/-- Embedding of `TextExtractionPipeline._process_pdf_document`
(html_to_text.py lines 288-318): the PDF extractor's result is repackaged;
its errors list is passed through as a list and its confidence is used
unchanged (the locally computed quality score is unused in the source). -/
def process_pdf_document (pdf_result : PDFExtractionResult)
    (source_name url document_id : Str) : DocumentExtractionResult :=
  mkDocumentExtractionResult document_id source_name url "pdf".data
    pdf_result.text [] (some pdf_result.quality_metrics)
    pdf_result.extraction_method pdf_result.confidence_score
    (some (.list pdf_result.errors))

/-- Lower-casing of a Python string on the ASCII fragment. -/
def lowerStr (s : Str) : Str := s.map Char.toLower

/-- The `b'%PDF-'` magic bytes. -/
def pdfMagic : List ℕ := [0x25, 0x50, 0x44, 0x46, 0x2D]

/-- Embedding of `TextExtractionPipeline._detect_document_type`
(html_to_text.py lines 320-349): filename extension first, then the PDF
magic bytes, then a UTF-8 decode (the codec is the external `decodeUtf8`
oracle; `none` models a `UnicodeDecodeError`) with an `<html` / doctype
substring sniff, defaulting to `html`. -/
def detect_document_type (decodeUtf8 : List ℕ → Option Str) (content : PyContent)
    (filename : Option Str) : Str :=
  let byName : Option Str :=
    match filename with
    | some fn =>
      if fn = [] then none
      else
        let fl := lowerStr fn
        if ".pdf".data <:+ fl then some "pdf".data
        else if ".html".data <:+ fl ∨ ".htm".data <:+ fl then some "html".data
        else none
    | none => none
  match byName with
  | some t => t
  | none =>
    match content with
    | .bytes b =>
      if pdfMagic <+: b then "pdf".data
      else
        match decodeUtf8 b with
        | some t =>
          if "<html".data <:+: lowerStr t ∨ "<!doctype html".data <:+: lowerStr t then
            "html".data
          else "html".data
        | none => "html".data
    | .str s =>
      if "<html".data <:+: lowerStr s ∨ "<!doctype html".data <:+: lowerStr s then
        "html".data
      else "html".data

/-- Embedding of `TextExtractionPipeline.process_document` (html_to_text.py
lines 190-250).  Oracle arguments: `hashHex` is `hashlib.sha256(...)
.hexdigest()` (a fixed external algorithm), `decodeUtf8` the UTF-8 codec,
`norm` the NFKC normalizer, `soup` the BeautifulSoup products for this
content, `pdf_result` the PDF extractor's result for this content, and
`saveExc` the exception message raised by `_save_result` (file and S3
I/O), if any.  The `try` block covers dispatch and saving; its `except`
handler builds a fresh result whose `errors` is a singleton list and whose
`extraction_method` is left at the constructor default `""`
(`document_type or 'unknown'` is kept for fidelity although the detected
type is never falsy). -/
def process_document (hashHex : PyContent → Str) (decodeUtf8 : List ℕ → Option Str)
    (norm : Str → Str) (soup : SoupOutcome) (pdf_result : PDFExtractionResult)
    (saveExc : Option Str) (content : PyContent) (source_name url : Str)
    (document_type : Option Str) (filename : Option Str) :
    DocumentExtractionResult :=
  let content_hash := hashHex content
  let document_id := source_name ++ '_' :: content_hash.take 12
  let dtype :=
    match document_type with
    | some t => if t = [] then detect_document_type decodeUtf8 content filename else t
    | none => detect_document_type decodeUtf8 content filename
  let dispatched : Except Str DocumentExtractionResult :=
    if dtype = "html".data then
      .ok (process_html_document norm soup source_name url document_id)
    else if dtype = "pdf".data then
      .ok (process_pdf_document pdf_result source_name url document_id)
    else .error ("Unsupported document type: ".data ++ dtype)
  let exceptResult : Str → DocumentExtractionResult := fun e =>
    mkDocumentExtractionResult document_id source_name url
      (if dtype = [] then "unknown".data else dtype) [] [] none [] 0
      (some (.list ["Document processing failed: ".data ++ e]))
  match dispatched with
  | .ok r =>
    match saveExc with
    | none => r
    | some m => exceptResult m
  | .error e => exceptResult e

/-- Concrete direct text for the hybrid-selection instance: one hundred
copies of a single letter — one word token, hence no meaningful content. -/
def dDirect100 : Str := List.replicate 100 'a'

/-- Concrete OCR text for the hybrid-selection instance: sixty-two copies
of `courage ` followed by `anna` — 500 characters, 63 word tokens, average
word length 438/63 and readability 37, hence meaningful content. -/
def mOcr500 : Str := (List.replicate 62 "courage ".data).flatten ++ "anna".data

/-! ## Theorems -/


/-- Helper: `qmax` agrees with the order-theoretic maximum. -/
theorem qmax_eq_max (a b : ℚ) : qmax a b = max a b := by
  rw [qmax, max_def]

theorem qmin_eq_min (a b : ℚ) : qmin a b = min a b := by
  unfold qmin
  rcases le_or_lt b a with h | h
  · rcases eq_or_lt_of_le h with h2 | h2
    · subst h2
      simp
    · rw [if_pos h, min_eq_right h]
  · rw [if_neg (not_le.mpr h), min_eq_left h.le]

theorem qabs_eq_abs (a : ℚ) : qabs a = |a| := by
  unfold qabs
  rcases le_or_lt a 0 with h | h
  · rw [if_pos h, abs_of_nonpos h]
  · rw [if_neg (not_le.mpr h), abs_of_pos h]

/-- Helper: `_process_html_document` returns the document id it was
given. -/
theorem process_html_document_id (norm : Str → Str) (soup : SoupOutcome)
    (source_name url document_id : Str) :
    (process_html_document norm soup source_name url document_id).document_id
      = document_id := by
  unfold process_html_document mkDocumentExtractionResult
  dsimp only
  split <;> rfl

/-- Helper: the document id computed by `process_document` on every path is
the source name, an underscore and the first twelve hex digits of the
content hash. -/
theorem process_document_id (hashHex : PyContent → Str) (decodeUtf8 : List ℕ → Option Str)
    (norm : Str → Str) (soup : SoupOutcome) (pdf_result : PDFExtractionResult)
    (saveExc : Option Str) (content : PyContent) (source_name url : Str)
    (document_type : Option Str) (filename : Option Str) :
    (process_document hashHex decodeUtf8 norm soup pdf_result saveExc content
      source_name url document_type filename).document_id
      = source_name ++ '_' :: (hashHex content).take 12 := by
  unfold process_document
  dsimp only
  split
  · rename_i r heq
    split
    · split at heq
      · injection heq with h
        rw [← h]
        exact process_html_document_id ..
      · split at heq
        · injection heq with h
          rw [← h]
          rfl
        · exact absurd heq (by simp)
    · rfl
  · rfl

/-- C9: the document id of `process_document` is a function of the content
hash and the source name alone: two calls with the same content and source
name agree on it — whatever the normalizer, parser products, PDF result,
save outcome, URL, requested type or filename — and it equals the source
name plus the first twelve characters of the content hash. -/
theorem document_id_deterministic (hashHex : PyContent → Str)
    (d₁ d₂ : List ℕ → Option Str) (n₁ n₂ : Str → Str) (s₁ s₂ : SoupOutcome)
    (p₁ p₂ : PDFExtractionResult) (e₁ e₂ : Option Str) (content : PyContent)
    (source_name : Str) (u₁ u₂ : Str) (t₁ t₂ : Option Str) (f₁ f₂ : Option Str) :
    (process_document hashHex d₁ n₁ s₁ p₁ e₁ content source_name u₁ t₁ f₁).document_id
      = (process_document hashHex d₂ n₂ s₂ p₂ e₂ content source_name u₂ t₂ f₂).document_id
    ∧ (process_document hashHex d₁ n₁ s₁ p₁ e₁ content source_name u₁ t₁ f₁).document_id
      = source_name ++ '_' :: (hashHex content).take 12 := by
  constructor
  · rw [process_document_id, process_document_id]
  · rw [process_document_id]

/-- C2, counterexample: with all three external calls failing (pdfminer
metadata, pdfminer text, OCR), `extract_from_pdf` still returns a result
whose `errors` list is empty — the recoverable failures are logged, not
surfaced — while the metadata silently defaults.  This refutes the claim
that each such failure appears as an entry in the returned errors list. -/
theorem pdf_recoverable_failures_not_in_errors :
    (extract_from_pdf defaultPdfConfig none none none).errors = []
    ∧ (extract_from_pdf defaultPdfConfig none none none).metadata = ({} : PDFMetadata) := by
  decide

/-- C2, amended: recoverable failures of the metadata, direct-extraction
and OCR phases never abort `extract_from_pdf` (the embedded non-raising
path is total), the metadata defaults to the empty record when the
metadata phase fails, and the returned `errors` list is always empty on
this path — the failures are only logged, never surfaced in `errors`. -/
theorem pdf_recoverable_failures_default (cfg : PdfConfig) (mo : Option PDFMetadata)
    (dO : Option Str) (oO : Option (List (Str × ℚ))) :
    (extract_from_pdf cfg mo dO oO).errors = []
    ∧ (extract_from_pdf cfg mo dO oO).metadata = extract_metadata mo
    ∧ (mo = none → (extract_from_pdf cfg mo dO oO).metadata = ({} : PDFMetadata)) := by
  refine ⟨rfl, rfl, ?_⟩
  intro h
  subst h
  rfl

/-- C2, witness for the amended theorem at a concrete input. -/
theorem pdf_recoverable_failures_default_witness :
    (extract_from_pdf defaultPdfConfig none (some "hi".data) none).metadata
      = ({} : PDFMetadata) :=
  (pdf_recoverable_failures_default defaultPdfConfig none (some "hi".data) none).2.2 rfl

/-- C7, counterexample: the input `D:abcdefgh` is a malformed PDF date, yet
`_parse_pdf_date` does not return `None` — it slices the characters
positionally without validating digits and returns the garbage timestamp
`abcd-ef-gh 00:00:00`.  This refutes the claim that every malformed date
yields `None`. -/
theorem parse_pdf_date_malformed_cex :
    parse_pdf_date "D:abcdefgh".data ≠ none
    ∧ parse_pdf_date "D:abcdefgh".data = some "abcd-ef-gh 00:00:00".data := by
  decide

/-- C7, amended: `_parse_pdf_date` is total (the embedded body never
raises).  Every input starting with `D:` followed by at least eight
characters is decoded purely positionally — without validating that the
characters are digits — into `YYYY-MM-DD HH:MM:SS`, with missing hour,
minute and second slices defaulting to `00`; in particular a well-formed
`D:YYYYMMDDHHMMSS` date decodes correctly.  Empty input, input not
starting with `D:`, and input with fewer than eight characters after `D:`
yield `None`. -/
theorem parse_pdf_date_behaviour :
    (∀ (a b c d e f g h i j k l m n : Char) (tail : Str),
      parse_pdf_date ('D' :: ':' :: a :: b :: c :: d :: e :: f :: g :: h :: i :: j ::
          k :: l :: m :: n :: tail)
        = some ([a, b, c, d] ++ '-' :: [e, f] ++ '-' :: [g, h] ++ ' ' :: [i, j]
            ++ ':' :: [k, l] ++ ':' :: [m, n]))
    ∧ parse_pdf_date [] = none
    ∧ (∀ s : Str, s.take 2 ≠ "D:".data → parse_pdf_date s = none)
    ∧ (∀ s : Str, s.take 2 = "D:".data → s.length < 10 → parse_pdf_date s = none)
    ∧ parse_pdf_date "D:20231215143022".data = some "2023-12-15 14:30:22".data := by
  refine ⟨?_, rfl, ?_, ?_, by decide⟩
  · intro a b c d e f g h i j k l m n tail
    rfl
  · intro s hs
    unfold parse_pdf_date
    by_cases he : s = []
    · rw [if_pos he]
    · rw [if_neg he, if_neg hs]
  · intro s hs hlen
    have he : s ≠ [] := by
      intro h
      subst h
      simp at hs
    have hshort : ¬(8 ≤ ((s.drop 2).take 14).length) := by
      simp only [List.length_take, List.length_drop]
      omega
    unfold parse_pdf_date
    rw [if_neg he, if_pos hs]
    dsimp only
    rw [if_neg hshort]

/-- C7, witness for the amended theorem at concrete inputs. -/
theorem parse_pdf_date_behaviour_witness :
    parse_pdf_date ('D' :: ':' :: '2' :: '0' :: '2' :: '4' :: '0' :: '1' :: '0' :: '1' ::
        '0' :: '0' :: '0' :: '0' :: '0' :: '0' :: [])
      = some "2024-01-01 00:00:00".data
    ∧ parse_pdf_date "hello".data = none
    ∧ parse_pdf_date "D:2024".data = none := by
  refine ⟨?_, ?_, ?_⟩
  · rw [parse_pdf_date_behaviour.1 '2' '0' '2' '4' '0' '1' '0' '1' '0' '0' '0' '0' '0' '0' []]
    decide
  · exact parse_pdf_date_behaviour.2.2.1 "hello".data (by decide)
  · exact parse_pdf_date_behaviour.2.2.2.1 "D:2024".data (by decide) (by decide)

/-- Helper: the metrics of a run of ten exclamation marks — no word
tokens, so `total_words = 0`, while the sentence split still yields two
pieces and the readability score saturates at 100. -/
theorem bang_metrics :
    calculate_quality_metrics "!!!!!!!!!!".data
      = { total_chars := 10, total_words := 0, avg_word_length := 0,
          readability_score := 100, has_meaningful_content := false,
          language_confidence := 0 } := by
  have e1 : runsOf isWordChar "!!!!!!!!!!".data = [] := by decide
  have e2 : countRuns isSentencePunct "!!!!!!!!!!".data = 1 := by decide
  unfold calculate_quality_metrics
  rw [if_neg (by decide)]
  simp only [e1, e2]
  norm_num [qmax]

/-- C4, counterexample: on the metrics of a ten-character run of
exclamation marks (`total_words = 0`, `readability_score = 100`),
`get_quality_score` returns `0` through its early `if not
metrics.total_words` return, while the specification's formula gives
`0.3 * 100 = 30`.  This refutes the claim that the score always equals the
weighted-blend formula. -/
theorem get_quality_score_formula_cex :
    get_quality_score (calculate_quality_metrics "!!!!!!!!!!".data)
      ≠ specQualityScore (calculate_quality_metrics "!!!!!!!!!!".data) := by
  rw [bang_metrics]
  unfold get_quality_score specQualityScore
  norm_num [qmin, qmax]

/-- C4, amended: `get_quality_score` equals the specification's weighted
blend whenever `total_words` is non-zero, but returns `0` outright when
`total_words = 0` (where the formula could give up to 30 from the
readability component); for any metrics whose `language_confidence` lies in
`[0, 1]` the result lies in `[0, 100]`. -/
theorem get_quality_score_spec :
    (∀ m : TextQualityMetrics, m.total_words ≠ 0 →
      get_quality_score m = specQualityScore m)
    ∧ (∀ m : TextQualityMetrics, m.total_words = 0 → get_quality_score m = 0)
    ∧ (∀ m : TextQualityMetrics, 0 ≤ m.language_confidence → m.language_confidence ≤ 1 →
        0 ≤ get_quality_score m ∧ get_quality_score m ≤ 100) := by
  refine ⟨?_, ?_, ?_⟩
  · intro m hm
    unfold get_quality_score specQualityScore
    rw [if_neg hm]
    ring
  · intro m hm
    unfold get_quality_score
    rw [if_pos hm]
  · intro m h0 h1
    unfold get_quality_score
    split
    · norm_num
    · have ha1 : (0 : ℚ) ≤ qmin 100 ((m.total_words : ℚ) / 2) := by
        rw [qmin_eq_min]
        exact le_min (by norm_num) (by positivity)
      have ha2 : qmin 100 ((m.total_words : ℚ) / 2) ≤ 100 := by
        rw [qmin_eq_min]
        exact min_le_left _ _
      have hb1 : (0 : ℚ) ≤ qmax 0 (qmin 100 m.readability_score) := by
        rw [qmax_eq_max]
        exact le_max_left _ _
      have hb2 : qmax 0 (qmin 100 m.readability_score) ≤ 100 := by
        rw [qmax_eq_max, qmin_eq_min]
        exact max_le (by norm_num) (min_le_left _ _)
      have hc1 : (0 : ℚ) ≤ m.language_confidence * 100 := by positivity
      have hc2 : m.language_confidence * 100 ≤ 100 := by nlinarith
      constructor <;> nlinarith

/-- C4, witness for the amended theorem at concrete metric values. -/
theorem get_quality_score_spec_witness :
    get_quality_score
        { total_chars := 100, total_words := 40, avg_word_length := 5,
          readability_score := 50, has_meaningful_content := false,
          language_confidence := 1 / 2 }
      = specQualityScore
        { total_chars := 100, total_words := 40, avg_word_length := 5,
          readability_score := 50, has_meaningful_content := false,
          language_confidence := 1 / 2 }
    ∧ get_quality_score {} = 0
    ∧ 0 ≤ get_quality_score
        { total_chars := 100, total_words := 40, avg_word_length := 5,
          readability_score := 50, has_meaningful_content := false,
          language_confidence := 1 / 2 } := by
  refine ⟨get_quality_score_spec.1 _ (by decide), get_quality_score_spec.2.1 {} rfl, ?_⟩
  exact (get_quality_score_spec.2.2 _ (by norm_num) (by norm_num)).1

/-- C8: invariants of `_calculate_quality_metrics` — when there are no word
tokens the language confidence and average word length are zero, and no
metric field is negative (the two count fields are naturals, the three
rational fields are proved non-negative). -/
theorem quality_metrics_invariants (text : Str) :
    ((calculate_quality_metrics text).total_words = 0 →
      (calculate_quality_metrics text).language_confidence = 0
      ∧ (calculate_quality_metrics text).avg_word_length = 0)
    ∧ 0 ≤ (calculate_quality_metrics text).total_chars
    ∧ 0 ≤ (calculate_quality_metrics text).total_words
    ∧ 0 ≤ (calculate_quality_metrics text).avg_word_length
    ∧ 0 ≤ (calculate_quality_metrics text).readability_score
    ∧ 0 ≤ (calculate_quality_metrics text).language_confidence := by
  by_cases ht : text = []
  · subst ht
    refine ⟨fun _ => ⟨rfl, rfl⟩, ?_, ?_, ?_, ?_, ?_⟩ <;> norm_num [calculate_quality_metrics]
  · unfold calculate_quality_metrics
    rw [if_neg ht]
    dsimp only
    refine ⟨?_, Nat.zero_le _, Nat.zero_le _, ?_, ?_, ?_⟩
    · intro h
      have hw : runsOf isWordChar text = [] := List.length_eq_zero.mp h
      rw [if_pos hw, if_pos hw]
      exact ⟨rfl, rfl⟩
    · split
      · exact le_refl 0
      · positivity
    · rw [qmax_eq_max]
      exact le_max_left _ _
    · split
      · exact le_refl 0
      · positivity

/-- C8, witness at a concrete wordless input. -/
theorem quality_metrics_invariants_witness :
    (calculate_quality_metrics "!!!".data).language_confidence = 0
    ∧ (calculate_quality_metrics "!!!".data).avg_word_length = 0 :=
  (quality_metrics_invariants "!!!".data).1 (by decide)

/-- C5: OCR is attempted exactly when the `ocrGate` condition holds —
fallback enabled, direct confidence strictly below the threshold, stripped
direct text shorter than 1000 characters.  When the gate is false the
result is independent of the OCR oracle (OCR is never consulted) and the
extraction method is `direct`.  At the specification's quoted instances:
with confidence 10 and stripped length 2000 the gate is closed, with
confidence 10 and stripped length 5 it is open. -/
theorem ocr_gating :
    (∀ (cfg : PdfConfig) (mo : Option PDFMetadata) (dO : Option Str)
        (o₁ o₂ : Option (List (Str × ℚ))),
      ocrGate cfg (extract_text_direct dO).2
          (pythonStrip (extract_text_direct dO).1).length = false →
        extract_from_pdf cfg mo dO o₁ = extract_from_pdf cfg mo dO o₂
        ∧ (extract_from_pdf cfg mo dO o₁).extraction_method = "direct".data)
    ∧ ocrGate defaultPdfConfig 10 2000 = false
    ∧ ocrGate defaultPdfConfig 10 5 = true := by
  refine ⟨?_, by decide, by decide⟩
  intro cfg mo dO o₁ o₂ hgate
  unfold extract_from_pdf
  dsimp only
  rw [if_neg (by rw [hgate]; simp), if_neg (by rw [hgate]; simp)]
  exact ⟨rfl, rfl⟩

/-- C5, witness: with the fallback disabled the gate is closed, the result
ignores the OCR oracle and the method is `direct`. -/
theorem ocr_gating_witness :
    extract_from_pdf ⟨false, 60⟩ none (some "abc".data) (some [("x".data, 90)])
      = extract_from_pdf ⟨false, 60⟩ none (some "abc".data) none
    ∧ (extract_from_pdf ⟨false, 60⟩ none (some "abc".data)
        (some [("x".data, 90)])).extraction_method = "direct".data :=
  ocr_gating.1 ⟨false, 60⟩ none (some "abc".data) (some [("x".data, 90)]) none (by decide)

/-- Helper: the text of an empty string has no meaningful content. -/
theorem nil_not_meaningful :
    (calculate_quality_metrics ([] : Str)).has_meaningful_content = false := rfl

/-- Helper: the metrics of `mOcr500` flag meaningful content: 63 words,
average word length 438/63 > 3, readability 100 - 63 = 37 > 20. -/
theorem mOcr500_meaningful :
    (calculate_quality_metrics mOcr500).has_meaningful_content = true := by
  have hne : mOcr500 ≠ [] := by decide
  have hw : ¬(runsOf isWordChar mOcr500 = []) := by decide
  have hwl : (runsOf isWordChar mOcr500).length = 63 := by decide
  have hsum : ((runsOf isWordChar mOcr500).map List.length).sum = 438 := by decide
  have hr : countRuns isSentencePunct mOcr500 = 0 := by decide
  unfold calculate_quality_metrics
  rw [if_neg hne]
  dsimp only
  rw [if_neg hw]
  simp only [hwl, hsum, hr, Bool.and_eq_true, decide_eq_true_eq]
  refine ⟨⟨by norm_num, by norm_num⟩, ?_⟩
  norm_num [qmax]

/-- C6: OCR-inferior hybrid selection.  First, `_merge_texts` implements
exactly the specification's merge rule (prefer the side with meaningful
content; otherwise the longer text, ties to direct).  Second, whenever the
OCR gate is open, the OCR confidence does not exceed the direct confidence,
and the OCR text is non-empty yet strictly longer than the direct text
after stripping, `extract_from_pdf` selects method `hybrid`, reports
`max(direct_confidence, ocr_confidence)` and emits the cleaned merge of the
two texts.  Third, at the specification's instance — direct text of length
100 without meaningful content, OCR text of length 500 with meaningful
content — the merge yields the OCR text, which the PDF cleaner leaves
unchanged, so the emitted text is the OCR text. -/
theorem hybrid_merge_selection :
    (∀ direct_text ocr_text : Str,
      merge_texts direct_text ocr_text = specMergeRule direct_text ocr_text)
    ∧ (∀ (cfg : PdfConfig) (mo : Option PDFMetadata) (dO : Option Str)
        (oO : Option (List (Str × ℚ))),
      ocrGate cfg (extract_text_direct dO).2
          (pythonStrip (extract_text_direct dO).1).length = true →
      (extract_text_ocr oO).2 ≤ (extract_text_direct dO).2 →
      (extract_text_ocr oO).1 ≠ [] →
      (pythonStrip (extract_text_direct dO).1).length
          < (pythonStrip (extract_text_ocr oO).1).length →
        (extract_from_pdf cfg mo dO oO).extraction_method = "hybrid".data
        ∧ (extract_from_pdf cfg mo dO oO).confidence_score
            = qmax (extract_text_direct dO).2 (extract_text_ocr oO).2
        ∧ (extract_from_pdf cfg mo dO oO).text
            = clean_extracted_text
                (merge_texts (extract_text_direct dO).1 (extract_text_ocr oO).1))
    ∧ ((calculate_quality_metrics dDirect100).has_meaningful_content = false
        ∧ (calculate_quality_metrics mOcr500).has_meaningful_content = true
        ∧ dDirect100.length = 100 ∧ mOcr500.length = 500
        ∧ merge_texts dDirect100 mOcr500 = mOcr500
        ∧ clean_extracted_text mOcr500 = mOcr500) := by
  refine ⟨?_, ?_, ?_⟩
  · intro d o
    unfold merge_texts specMergeRule
    by_cases hd : d = []
    · subst hd
      dsimp only
      rw [if_pos rfl]
      rw [nil_not_meaningful]
      by_cases ho : o = []
      · subst ho
        simp
      · by_cases hom : (calculate_quality_metrics o).has_meaningful_content = true
        · simp [hom]
        · simp only [Bool.not_eq_true] at hom
          simp only [hom]
          have : ¬(o.length ≤ List.length ([] : Str)) := by
            simp [List.length_pos, ho]
          simp [this, ho]
    · rw [if_neg hd]
      by_cases ho : o = []
      · subst ho
        dsimp only
        rw [if_pos rfl, nil_not_meaningful]
        by_cases hdm : (calculate_quality_metrics d).has_meaningful_content = true
        · simp [hdm]
        · simp only [Bool.not_eq_true] at hdm
          simp [hdm]
      · rw [if_neg ho]
        by_cases hdm : (calculate_quality_metrics d).has_meaningful_content = true <;>
          by_cases hom : (calculate_quality_metrics o).has_meaningful_content = true <;>
            simp_all
  · intro cfg mo dO oO hgate hconf hne hlen
    unfold extract_from_pdf
    dsimp only
    rw [if_pos (by rw [hgate]), if_neg (not_lt.mpr hconf), if_pos ⟨hne, hlen⟩]
    exact ⟨rfl, rfl, rfl⟩
  · refine ⟨by decide, mOcr500_meaningful, by decide, by decide, ?_, by decide⟩
    unfold merge_texts
    rw [if_neg (by decide : ¬(dDirect100 = [])), if_neg (by decide : ¬(mOcr500 = []))]
    dsimp only
    rw [mOcr500_meaningful]
    have hdm : (calculate_quality_metrics dDirect100).has_meaningful_content = false := by
      decide
    rw [hdm]
    simp

/-- C6, witness: a concrete call in which the gate is open, the OCR
confidence (0) does not exceed the direct confidence, and the OCR text is
longer — the selected method is `hybrid`. -/
theorem hybrid_merge_selection_witness :
    (extract_from_pdf defaultPdfConfig none none
        (some [(mOcr500, 0)])).extraction_method = "hybrid".data
    ∧ (extract_from_pdf defaultPdfConfig none none (some [(mOcr500, 0)])).text
        = clean_extracted_text (merge_texts (extract_text_direct none).1
            (extract_text_ocr (some [(mOcr500, 0)])).1) := by
  have h := hybrid_merge_selection.2.1 defaultPdfConfig none none (some [(mOcr500, 0)])
    (by decide)
    (by
      unfold extract_text_ocr extract_text_direct
      dsimp only
      rw [show List.take 50 [(mOcr500, (0 : ℚ))] = [(mOcr500, 0)] from by decide]
      norm_num)
    (by decide)
    (by decide)
  exact ⟨h.1, h.2.2⟩

/-- C1, counterexample: when HTML cleaning fails (here with message
`boom`), `process_document` returns a result whose `extraction_method` is
the constructor default `""`, not `"failed"`, and whose `errors` is the
raw error string rather than a list of strings.  This refutes the claimed
failure-result shape. -/
theorem process_document_failed_method_cex :
    (process_document (fun _ => "abc".data) (fun _ => none) id (.fail "boom".data)
        (extract_from_pdf defaultPdfConfig none none none) none (.str []) "s".data
        "u".data (some "html".data) none).extraction_method ≠ "failed".data
    ∧ (process_document (fun _ => "abc".data) (fun _ => none) id (.fail "boom".data)
        (extract_from_pdf defaultPdfConfig none none none) none (.str []) "s".data
        "u".data (some "html".data) none).errors = .str "boom".data := by
  decide

/-- C1, amended: `process_document` always returns a result record (the
embedding is total).  On an unsupported document type, and when the
save step raises after dispatch, the result has empty text, confidence 0
and a singleton `errors` list — but `extraction_method` is the constructor
default `""`, not `"failed"`.  On an HTML cleaning failure the result has
empty text, confidence 0 and method `""`, and `errors` holds the raw error
string itself (degenerating to an empty list when the message is empty) —
not a list of strings.  The method `"failed"` is produced only inside the
PDF extractor's own exception handler. -/
theorem process_document_failure_modes :
    (∀ (hashHex : PyContent → Str) (decodeUtf8 : List ℕ → Option Str) (norm : Str → Str)
        (soup : SoupOutcome) (pdfRes : PDFExtractionResult) (content : PyContent)
        (source_name url : Str) (fn : Option Str) (t : Str),
      t ≠ [] → t ≠ "html".data → t ≠ "pdf".data →
        (process_document hashHex decodeUtf8 norm soup pdfRes none content source_name
            url (some t) fn).extracted_text = []
        ∧ (process_document hashHex decodeUtf8 norm soup pdfRes none content source_name
            url (some t) fn).confidence_score = 0
        ∧ (process_document hashHex decodeUtf8 norm soup pdfRes none content source_name
            url (some t) fn).extraction_method = []
        ∧ (process_document hashHex decodeUtf8 norm soup pdfRes none content source_name
            url (some t) fn).errors
            = .list ["Document processing failed: Unsupported document type: ".data ++ t])
    ∧ (∀ (hashHex : PyContent → Str) (decodeUtf8 : List ℕ → Option Str) (norm : Str → Str)
        (soup : SoupOutcome) (pdfRes : PDFExtractionResult) (content : PyContent)
        (source_name url : Str) (fn : Option Str) (t : Str) (m : Str),
      (t = "html".data ∨ t = "pdf".data) →
        (process_document hashHex decodeUtf8 norm soup pdfRes (some m) content source_name
            url (some t) fn).extracted_text = []
        ∧ (process_document hashHex decodeUtf8 norm soup pdfRes (some m) content
            source_name url (some t) fn).confidence_score = 0
        ∧ (process_document hashHex decodeUtf8 norm soup pdfRes (some m) content
            source_name url (some t) fn).extraction_method = []
        ∧ (process_document hashHex decodeUtf8 norm soup pdfRes (some m) content
            source_name url (some t) fn).errors
            = .list ["Document processing failed: ".data ++ m])
    ∧ (∀ (hashHex : PyContent → Str) (decodeUtf8 : List ℕ → Option Str) (norm : Str → Str)
        (e : Str) (pdfRes : PDFExtractionResult) (content : PyContent)
        (source_name url : Str) (fn : Option Str),
        (process_document hashHex decodeUtf8 norm (.fail e) pdfRes none content
            source_name url (some "html".data) fn).extracted_text = []
        ∧ (process_document hashHex decodeUtf8 norm (.fail e) pdfRes none content
            source_name url (some "html".data) fn).confidence_score = 0
        ∧ (process_document hashHex decodeUtf8 norm (.fail e) pdfRes none content
            source_name url (some "html".data) fn).extraction_method = []
        ∧ (process_document hashHex decodeUtf8 norm (.fail e) pdfRes none content
            source_name url (some "html".data) fn).errors
            = (if e = [] then ErrVal.list [] else .str e)) := by
  refine ⟨?_, ?_, ?_⟩
  · intro hashHex decodeUtf8 norm soup pdfRes content source_name url fn t h0 h1 h2
    unfold process_document
    dsimp only
    rw [if_neg h0, if_neg h1, if_neg h2, if_neg h0]
    exact ⟨rfl, rfl, rfl, rfl⟩
  · intro hashHex decodeUtf8 norm soup pdfRes content source_name url fn t m ht
    rcases ht with ht | ht <;> subst ht <;> exact ⟨rfl, rfl, rfl, rfl⟩
  · intro hashHex decodeUtf8 norm e pdfRes content source_name url fn
    refine ⟨rfl, rfl, rfl, ?_⟩
    show coerceErrors (some (.str e)) = if e = [] then ErrVal.list [] else .str e
    by_cases he : e = []
    · subst he
      rfl
    · simp [coerceErrors, errTruthy, List.isEmpty_iff, he]

/-- C1, witness: the amended failure shapes at concrete inputs — an
unsupported type `xyz`, a save failure on the `pdf` path, and an HTML
cleaning failure with message `boom`. -/
theorem process_document_failure_modes_witness :
    (process_document (fun _ => "abc".data) (fun _ => none) id (.ok [] [])
        (extract_from_pdf defaultPdfConfig none none none) none (.str []) "s".data
        "u".data (some "xyz".data) none).errors
      = .list ["Document processing failed: Unsupported document type: xyz".data]
    ∧ (process_document (fun _ => "abc".data) (fun _ => none) id (.ok [] [])
        (extract_from_pdf defaultPdfConfig none none none) (some "disk full".data)
        (.str []) "s".data "u".data (some "pdf".data) none).extraction_method = []
    ∧ (process_document (fun _ => "abc".data) (fun _ => none) id (.fail "boom".data)
        (extract_from_pdf defaultPdfConfig none none none) none (.str []) "s".data
        "u".data (some "html".data) none).errors
      = (if ("boom".data : Str) = [] then ErrVal.list [] else .str "boom".data) := by
  refine ⟨?_, ?_, ?_⟩
  · exact (process_document_failure_modes.1 (fun _ => "abc".data) (fun _ => none) id
      (.ok [] []) (extract_from_pdf defaultPdfConfig none none none) (.str [])
      "s".data "u".data none "xyz".data (by decide) (by decide) (by decide)).2.2.2
  · exact (process_document_failure_modes.2.1 (fun _ => "abc".data) (fun _ => none) id
      (.ok [] []) (extract_from_pdf defaultPdfConfig none none none) (.str [])
      "s".data "u".data none "pdf".data "disk full".data (Or.inr rfl)).2.2.1
  · exact (process_document_failure_modes.2.2 (fun _ => "abc".data) (fun _ => none) id
      "boom".data (extract_from_pdf defaultPdfConfig none none none) (.str [])
      "s".data "u".data none).2.2.2

/-! ## Idempotence machinery for the shared cleaning rule -/

/-- Helper: a chain relation restricts to any contiguous substring. -/
theorem chainWithin {R : Char → Char → Prop} {t u : Str} (h : List.Chain' R t)
    (hsub : u <:+: t) : List.Chain' R u :=
  List.Chain'.infix h hsub

/-- Helper: stripping yields a contiguous substring. -/
theorem stripWithin (l : Str) : pythonStrip l <:+: l := by
  obtain ⟨t, ht⟩ := List.rdropWhile_prefix isSpaceChar (List.dropWhile isSpaceChar l)
  obtain ⟨s, hs⟩ : List.dropWhile isSpaceChar l <:+ l := List.dropWhile_suffix isSpaceChar
  exact ⟨s, t, by rw [pythonStrip, List.append_assoc, ht, hs]⟩

/-- Helper: members of a stripped list are members of the original. -/
theorem strip_mem {x : Char} {l : Str} (h : x ∈ pythonStrip l) : x ∈ l :=
  ( List.IsInfix.sublist (stripWithin l)).subset h

/-- Helper: `str.strip()` is idempotent. -/
theorem strip_idem (l : Str) : pythonStrip (pythonStrip l) = pythonStrip l := by
  have hu : List.dropWhile isSpaceChar (List.dropWhile isSpaceChar l)
      = List.dropWhile isSpaceChar l := List.dropWhile_idempotent isSpaceChar l
  have h1 : List.dropWhile isSpaceChar
      (List.rdropWhile isSpaceChar (List.dropWhile isSpaceChar l))
      = List.rdropWhile isSpaceChar (List.dropWhile isSpaceChar l) := by
    rw [List.dropWhile_eq_self_iff]
    intro hl
    obtain ⟨t, ht⟩ := List.rdropWhile_prefix isSpaceChar (List.dropWhile isSpaceChar l)
    have hvne : List.rdropWhile isSpaceChar (List.dropWhile isSpaceChar l) ≠ [] :=
      List.length_pos.mp hl
    have hune : List.dropWhile isSpaceChar l ≠ [] := by
      intro hx
      apply hvne
      rw [hx]
      simp
    have hheads : (List.rdropWhile isSpaceChar (List.dropWhile isSpaceChar l)).head?
        = (List.dropWhile isSpaceChar l).head? := by
      conv_rhs => rw [← ht]
      rw [List.head?_append_of_ne_nil _ hvne]
    rw [List.get_mk_zero]
    have hhead := List.head_dropWhile_not isSpaceChar l hune
    rw [List.head?_eq_head hvne, List.head?_eq_head hune, Option.some.injEq] at hheads
    rw [hheads, hhead]
    simp
  show List.rdropWhile isSpaceChar (List.dropWhile isSpaceChar (pythonStrip l)) = _
  unfold pythonStrip
  rw [h1, List.rdropWhile_idempotent]

/-- Helper: a list whose first and last characters are not whitespace is a
fixed point of `str.strip()`. -/
theorem strip_eq_self (l : Str) (h1 : ∀ c, l.head? = some c → isSpaceChar c = false)
    (h2 : ∀ c, l.getLast? = some c → isSpaceChar c = false) : pythonStrip l = l := by
  cases l with
  | nil => rfl
  | cons a t =>
    have ha : isSpaceChar a = false := h1 a rfl
    have hne : (a :: t : Str) ≠ [] := by simp
    unfold pythonStrip
    rw [List.dropWhile_cons, if_neg (by simp [ha]), List.rdropWhile_eq_self_iff]
    intro hl
    simp [h2 ((a :: t).getLast hl) (List.getLast?_eq_getLast _ hl)]

/-- Helper: a fixed point of `str.strip()` has non-whitespace first and
last characters. -/
theorem strip_fixed_ends (l : Str) (h : pythonStrip l = l) :
    (∀ c, l.head? = some c → isSpaceChar c = false)
    ∧ (∀ c, l.getLast? = some c → isSpaceChar c = false) := by
  have hd : List.dropWhile isSpaceChar l = l := by
    have hlen1 : l.length ≤ (List.dropWhile isSpaceChar l).length := by
      obtain ⟨t, ht⟩ := List.rdropWhile_prefix isSpaceChar (List.dropWhile isSpaceChar l)
      have hlv := congrArg List.length ht
      have hlh := congrArg List.length h
      simp only [List.length_append] at hlv
      unfold pythonStrip at hlh
      omega
    have hlen2 : (List.dropWhile isSpaceChar l).length ≤ l.length :=
      List.IsSuffix.length_le (List.dropWhile_suffix isSpaceChar)
    exact List.IsSuffix.eq_of_length (List.dropWhile_suffix isSpaceChar)
      (le_antisymm hlen2 hlen1)
  have hr : List.rdropWhile isSpaceChar l = l := by
    have h2 := h
    unfold pythonStrip at h2
    rwa [hd] at h2
  constructor
  · intro c hc
    cases l with
    | nil => simp at hc
    | cons a t =>
      have h3 := List.dropWhile_eq_self_iff.mp hd (by simp)
      simp only [List.head?_cons, Option.some.injEq] at hc
      subst hc
      simpa using h3
  · intro c hc
    have hne : l ≠ [] := by
      intro hx
      subst hx
      simp at hc
    have h3 := List.rdropWhile_eq_self_iff.mp hr hne
    rw [List.getLast?_eq_getLast _ hne, Option.some.injEq] at hc
    subst hc
    simpa using h3

/-- Helper: `splitOnChar` never returns the empty list of pieces. -/
theorem splitOnChar_ne_nil (c : Char) (t : Str) : splitOnChar c t ≠ [] := by
  induction t with
  | nil => simp [splitOnChar]
  | cons x xs ih =>
    unfold splitOnChar
    dsimp only
    split
    · simp
    · match hr : splitOnChar c xs with
      | [] => exact absurd hr ih
      | h :: rt => simp

/-- Helper: no piece of `splitOnChar` contains the separator. -/
theorem splitOnChar_not_mem {c : Char} {t : Str} {l : Str} (hl : l ∈ splitOnChar c t) :
    c ∉ l := by
  induction t generalizing l with
  | nil =>
    simp only [splitOnChar, List.mem_singleton] at hl
    subst hl
    simp
  | cons x xs ih =>
    unfold splitOnChar at hl
    dsimp only at hl
    by_cases hx : x = c
    · rw [if_pos hx] at hl
      rcases List.mem_cons.mp hl with h | h
      · subst h
        simp
      · exact ih h
    · rw [if_neg hx] at hl
      rcases hsp : splitOnChar c xs with _ | ⟨h, rt⟩
      · exact absurd hsp (splitOnChar_ne_nil c xs)
      · rw [hsp] at hl
        rcases List.mem_cons.mp hl with he | he
        · subst he
          intro hmem
          rcases List.mem_cons.mp hmem with h2 | h2
          · exact hx h2.symm
          · exact ih (hsp ▸ List.mem_cons_self h rt) h2
        · exact ih (hsp ▸ List.mem_cons.mpr (Or.inr he))

/-- Helper: the first piece of `splitOnChar` is a prefix of the input. -/
theorem splitOnChar_head_pre (c : Char) (t : Str) :
    ∀ h rt, splitOnChar c t = h :: rt → h <+: t := by
  induction t with
  | nil =>
    intro h rt he
    have h1 : ([] : Str) = h := (List.cons.injEq .. |>.mp he).1
    rw [← h1]
  | cons x xs ih =>
    intro h rt he
    unfold splitOnChar at he
    dsimp only at he
    by_cases hx : x = c
    · rw [if_pos hx] at he
      rw [← (List.cons.injEq .. |>.mp he).1]
      exact List.nil_prefix
    · rw [if_neg hx] at he
      rcases hsp : splitOnChar c xs with _ | ⟨h2, rt2⟩
      · exact absurd hsp (splitOnChar_ne_nil c xs)
      · rw [hsp] at he
        have he2 := List.cons.injEq .. |>.mp he
        rw [← he2.1]
        obtain ⟨t2, ht2⟩ := ih h2 rt2 hsp
        exact ⟨t2, by rw [List.cons_append, ht2]⟩

/-- Helper: every piece of `splitOnChar` is a contiguous substring. -/
theorem splitOnChar_within {c : Char} {t : Str} {l : Str} (hl : l ∈ splitOnChar c t) :
    l <:+: t := by
  induction t generalizing l with
  | nil =>
    simp only [splitOnChar, List.mem_singleton] at hl
    subst hl
    exact List.nil_infix
  | cons x xs ih =>
    unfold splitOnChar at hl
    dsimp only at hl
    by_cases hx : x = c
    · rw [if_pos hx] at hl
      rcases List.mem_cons.mp hl with h | h
      · subst h
        exact List.nil_infix
      · exact (ih h).trans (List.infix_cons (List.infix_refl xs))
    · rw [if_neg hx] at hl
      rcases hsp : splitOnChar c xs with _ | ⟨h2, rt2⟩
      · exact absurd hsp (splitOnChar_ne_nil c xs)
      · rw [hsp] at hl
        rcases List.mem_cons.mp hl with he | he
        · subst he
          obtain ⟨u, hu⟩ := splitOnChar_head_pre c xs h2 rt2 hsp
          exact ⟨[], u, by simp [← hu]⟩
        · exact ((ih (hsp ▸ List.mem_cons.mpr (Or.inr he)))).trans
            (List.infix_cons (List.infix_refl xs))

/-- Helper: splitting a separator-free string returns it whole. -/
theorem splitOnChar_of_not_mem {c : Char} {u : Str} (h : c ∉ u) :
    splitOnChar c u = [u] := by
  induction u with
  | nil => rfl
  | cons x xs ih =>
    have hx : x ≠ c := fun he => h (he ▸ List.mem_cons_self x xs)
    have hxs : c ∉ xs := fun he => h (List.mem_cons.mpr (Or.inr he))
    unfold splitOnChar
    dsimp only
    rw [if_neg hx, ih hxs]

/-- Helper: splitting at an explicit separator occurrence. -/
theorem splitOnChar_append {c : Char} {u : Str} (v : Str) (h : c ∉ u) :
    splitOnChar c (u ++ c :: v) = u :: splitOnChar c v := by
  induction u with
  | nil =>
    show splitOnChar c (c :: v) = [] :: splitOnChar c v
    conv_lhs => rw [splitOnChar.eq_def]
    dsimp only
    rw [if_pos rfl]
  | cons x xs ih =>
    have hx : x ≠ c := fun he => h (he ▸ List.mem_cons_self x xs)
    have hxs : c ∉ xs := fun he => h (List.mem_cons.mpr (Or.inr he))
    show splitOnChar c (x :: (xs ++ c :: v)) = (x :: xs) :: splitOnChar c v
    conv_lhs => rw [splitOnChar.eq_def]
    dsimp only
    rw [if_neg hx, ih hxs]

/-- Helper: `splitOnChar` undoes `intercalateChar` when no piece contains
the separator. -/
theorem splitOnChar_intercalateChar {c : Char} {L : List Str}
    (h : ∀ l ∈ L, c ∉ l) (hne : L ≠ []) :
    splitOnChar c (intercalateChar c L) = L := by
  induction L with
  | nil => exact absurd rfl hne
  | cons l ls ih =>
    cases ls with
    | nil => exact splitOnChar_of_not_mem (h l (List.mem_cons_self l []))
    | cons l2 ls2 =>
      show splitOnChar c (l ++ c :: intercalateChar c (l2 :: ls2)) = _
      rw [splitOnChar_append _ (h l (List.mem_cons_self l _)),
        ih (fun x hx => h x (List.mem_cons.mpr (Or.inr hx))) (by simp)]

/-- Helper: step equation of `collapseSpaces` on a singleton. -/
theorem collapseSpaces_single (c : Char) :
    collapseSpaces [c] = if spTab c then [' '] else [c] := rfl

/-- Helper: step equation of `collapseSpaces` on two or more characters. -/
theorem collapseSpaces_cons2 (a b : Char) (t : Str) :
    collapseSpaces (a :: b :: t)
      = if spTab a && spTab b then collapseSpaces (b :: t)
        else (if spTab a then ' ' else a) :: collapseSpaces (b :: t) := rfl

/-- Helper: the space-collapsing substitution emits no tab. -/
theorem collapseSpaces_no_tab (t : Str) : '\t' ∉ collapseSpaces t := by
  induction t with
  | nil => simp [collapseSpaces]
  | cons a t ih =>
    cases t with
    | nil =>
      rw [collapseSpaces_single]
      by_cases hsp : spTab a = true
      · rw [if_pos hsp]
        decide
      · rw [if_neg hsp]
        intro hmem
        rcases List.mem_singleton.mp hmem with h
        rw [← h] at hsp
        exact hsp (by decide)
    | cons b t2 =>
      rw [collapseSpaces_cons2]
      by_cases hc : (spTab a && spTab b) = true
      · rw [if_pos hc]
        exact ih
      · rw [if_neg hc]
        intro hmem
        rcases List.mem_cons.mp hmem with h | h
        · by_cases hsp : spTab a = true
          · rw [if_pos hsp] at h
            exact absurd h.symm (by decide)
          · rw [if_neg hsp] at h
            rw [← h] at hsp
            exact hsp (by decide)
        · exact ih h

/-- Helper: `collapseSpaces` of a non-empty string is non-empty and its
first character is a space or tab exactly when the input head is. -/
theorem collapseSpaces_head (t : Str) : ∀ a, ∃ h rest,
    collapseSpaces (a :: t) = h :: rest ∧ spTab h = spTab a := by
  induction t with
  | nil =>
    intro a
    by_cases hsp : spTab a = true
    · exact ⟨' ', [], by rw [collapseSpaces_single, if_pos hsp], by rw [hsp]; decide⟩
    · exact ⟨a, [], by rw [collapseSpaces_single, if_neg hsp], rfl⟩
  | cons b t2 ih =>
    intro a
    by_cases hc : (spTab a && spTab b) = true
    · obtain ⟨h, rest, he, hsp⟩ := ih b
      have hab := Bool.and_eq_true .. |>.mp hc
      exact ⟨h, rest, by rw [collapseSpaces_cons2, if_pos hc, he],
        by rw [hsp, hab.1, hab.2]⟩
    · by_cases hsp : spTab a = true
      · exact ⟨' ', collapseSpaces (b :: t2),
          by rw [collapseSpaces_cons2, if_neg hc, if_pos hsp], by rw [hsp]; decide⟩
      · exact ⟨a, collapseSpaces (b :: t2),
          by rw [collapseSpaces_cons2, if_neg hc, if_neg hsp], rfl⟩

/-- Helper: the space-collapsing substitution leaves no two adjacent
space-or-tab characters. -/
theorem collapseSpaces_chain (t : Str) : List.Chain' noSpacePair (collapseSpaces t) := by
  induction t with
  | nil => simp [collapseSpaces]
  | cons a t ih =>
    cases t with
    | nil =>
      rw [collapseSpaces_single]
      split <;> simp
    | cons b t2 =>
      rw [collapseSpaces_cons2]
      by_cases hc : (spTab a && spTab b) = true
      · rw [if_pos hc]
        exact ih
      · rw [if_neg hc]
        obtain ⟨h, rest, he, hsp⟩ := collapseSpaces_head t2 b
        rw [he]
        rw [he] at ih
        refine List.chain'_cons.mpr ⟨?_, ih⟩
        intro hbad
        apply hc
        rw [Bool.and_eq_true]
        have hea : spTab (if spTab a = true then ' ' else a) = spTab a := by
          by_cases hsa : spTab a = true
          · rw [if_pos hsa, hsa]
            decide
          · rw [if_neg hsa]
        rw [hea, hsp] at hbad
        exact hbad

/-- Helper: a string with no tab and no two adjacent space-or-tab
characters is a fixed point of the space-collapsing substitution. -/
theorem collapseSpaces_id (t : Str) (h1 : '\t' ∉ t)
    (h2 : List.Chain' noSpacePair t) : collapseSpaces t = t := by
  induction t with
  | nil => rfl
  | cons a t ih =>
    have ha : a ≠ '\t' := fun he => h1 (he ▸ List.mem_cons_self a t)
    have haeq : spTab a = true → a = ' ' := by
      intro hsp
      have hor : a = ' ' ∨ a = '\t' := by simpa [spTab] using hsp
      rcases hor with h | h
      · exact h
      · exact absurd h ha
    cases t with
    | nil =>
      rw [collapseSpaces_single]
      by_cases hsp : spTab a = true
      · rw [if_pos hsp, haeq hsp]
      · rw [if_neg hsp]
    | cons b t2 =>
      have hpair := List.chain'_cons.mp h2
      rw [collapseSpaces_cons2]
      have hc : ¬((spTab a && spTab b) = true) := by
        rw [Bool.and_eq_true]
        exact hpair.1
      rw [if_neg hc, ih (fun he => h1 (List.mem_cons.mpr (Or.inr he))) hpair.2]
      by_cases hsp : spTab a = true
      · rw [if_pos hsp, haeq hsp]
      · rw [if_neg hsp]

/-- Helper: step equation of `groupRuns` on two or more characters. -/
theorem groupRuns_cons2 (p : Char → Bool) (a b : Char) (t : Str) :
    groupRuns p (a :: b :: t)
      = match groupRuns p (b :: t) with
        | [] => [(p a, [a])]
        | (fb, run) :: rest =>
          if p a = fb then (fb, a :: run) :: rest
          else (p a, [a]) :: (fb, run) :: rest := rfl

/-- Helper: the run decomposition of a non-empty string is non-empty. -/
theorem groupRuns_ne_nil (p : Char → Bool) : ∀ (t : Str) (a : Char),
    groupRuns p (a :: t) ≠ [] := by
  intro t
  induction t with
  | nil =>
    intro a
    simp [groupRuns]
  | cons b t2 ih =>
    intro a
    rw [groupRuns_cons2]
    rcases hg : groupRuns p (b :: t2) with _ | ⟨⟨fb, run⟩, rest⟩
    · exact absurd hg (ih b)
    · dsimp only
      split <;> simp

/-- Helper: flattening the run contents recovers the string. -/
theorem groupRuns_flatten (p : Char → Bool) (s : Str) :
    ((groupRuns p s).map Prod.snd).flatten = s := by
  induction s with
  | nil => rfl
  | cons a t ih =>
    cases t with
    | nil => rfl
    | cons b t2 =>
      rw [groupRuns_cons2]
      rcases hg : groupRuns p (b :: t2) with _ | ⟨⟨fb, run⟩, rest⟩
      · exact absurd hg (groupRuns_ne_nil p t2 b)
      · rw [hg] at ih
        dsimp only
        simp only [List.map_cons, List.flatten_cons] at ih
        by_cases hpa : p a = fb
        · rw [if_pos hpa]
          simp only [List.map_cons, List.flatten_cons, List.cons_append, ih]
        · rw [if_neg hpa]
          simp only [List.map_cons, List.flatten_cons, List.singleton_append,
            List.cons_append, List.nil_append, ih]

/-- Helper: each run is non-empty and its characters agree with its tag. -/
theorem groupRuns_mem (p : Char → Bool) (s : Str) :
    ∀ g ∈ groupRuns p s, g.2 ≠ [] ∧ ∀ c ∈ g.2, p c = g.1 := by
  induction s with
  | nil => simp [groupRuns]
  | cons a t ih =>
    cases t with
    | nil =>
      intro g hg
      simp only [groupRuns, List.mem_singleton] at hg
      subst hg
      refine ⟨by simp, ?_⟩
      intro c hc
      rw [List.mem_singleton.mp hc]
    | cons b t2 =>
      intro g hg
      rw [groupRuns_cons2] at hg
      rcases hgr : groupRuns p (b :: t2) with _ | ⟨⟨fb, run⟩, rest⟩
      · exact absurd hgr (groupRuns_ne_nil p t2 b)
      · rw [hgr] at hg ih
        dsimp only at hg
        by_cases hpa : p a = fb
        · rw [if_pos hpa] at hg
          rcases List.mem_cons.mp hg with he | he
          · subst he
            have hrun := ih (fb, run) (List.mem_cons_self _ _)
            refine ⟨by simp, ?_⟩
            intro c hc
            rcases List.mem_cons.mp hc with h2 | h2
            · rw [h2, hpa]
            · exact hrun.2 c h2
          · exact ih g (List.mem_cons.mpr (Or.inr he))
        · rw [if_neg hpa] at hg
          rcases List.mem_cons.mp hg with he | he
          · subst he
            refine ⟨by simp, ?_⟩
            intro c hc
            rw [List.mem_singleton.mp hc]
          · exact ih g he

/-- Helper: each run content is a contiguous substring of the string. -/
theorem groupRuns_within (p : Char → Bool) (s : Str) {g : Bool × Str}
    (hg : g ∈ groupRuns p s) : g.2 <:+: s :=
  groupRuns_flatten p s ▸ List.infix_of_mem_flatten (List.mem_map_of_mem Prod.snd hg)

/-- Helper: an all-whitespace run in which no newline neighbours another
whitespace character contains at most one newline. -/
theorem wsRun_nl_count {r : Str} (hws : ∀ c ∈ r, isSpaceChar c = true)
    (hch : List.Chain' noNlPair r) :
    (r.filter (fun c => c = '\n')).length ≤ 1 := by
  induction r with
  | nil => simp
  | cons a r2 ih =>
    by_cases ha : a = '\n'
    · subst ha
      have hr2 : r2 = [] := by
        cases r2 with
        | nil => rfl
        | cons b r3 =>
          have hR := (List.chain'_cons.mp hch).1
          exact absurd ⟨by decide, hws b (by simp), Or.inl rfl⟩ hR
      rw [hr2]
      simp
    · rw [List.filter_cons, if_neg (by simp [ha])]
      exact ih (fun c hc => hws c (List.mem_cons.mpr (Or.inr hc))) hch.tail

/-- Helper: a whitespace run with at most one newline is left unchanged by
the blank-line-collapsing rewrite. -/
theorem transformWsRun_id {r : Str}
    (h : (r.filter (fun c => c = '\n')).length ≤ 1) : transformWsRun r = r := by
  unfold transformWsRun
  rw [if_neg (by omega)]

/-- Helper: a string in which no newline neighbours another whitespace
character is a fixed point of the blank-line-collapsing substitution. -/
theorem collapseNewlines_id {s : Str} (h : List.Chain' noNlPair s) :
    collapseNewlines s = s := by
  unfold collapseNewlines
  have hmap : (groupRuns isSpaceChar s).map
        (fun g => if g.1 then transformWsRun g.2 else g.2)
      = (groupRuns isSpaceChar s).map Prod.snd := by
    apply List.map_congr_left
    intro g hg
    by_cases hb : g.1 = true
    · rw [if_pos hb]
      apply transformWsRun_id
      apply wsRun_nl_count
      · intro c hc
        rw [(groupRuns_mem isSpaceChar s g hg).2 c hc, hb]
      · exact chainWithin h (groupRuns_within isSpaceChar s hg)
    · rw [if_neg hb]
  rw [hmap, groupRuns_flatten]

/-- Helper: the head of a separator-joined list is the head of its first
piece when that piece is non-empty. -/
theorem intercalateChar_head (c : Char) (l : Str) (rest : List Str) (h : l ≠ []) :
    (intercalateChar c (l :: rest)).head? = l.head? := by
  cases rest with
  | nil => rfl
  | cons l2 ls => exact List.head?_append_of_ne_nil _ h

/-- Helper: a separator-joined list with a non-empty first piece is
non-empty. -/
theorem intercalateChar_ne_nil (c : Char) (l : Str) (rest : List Str) (h : l ≠ []) :
    intercalateChar c (l :: rest) ≠ [] := by
  intro hx
  have h2 := intercalateChar_head c l rest h
  rw [hx] at h2
  cases l with
  | nil => exact h rfl
  | cons a t => simp at h2

/-- Helper: every character of a separator-joined list is the separator or
belongs to one of its pieces. -/
theorem intercalateChar_mem {x c : Char} : ∀ {L : List Str},
    x ∈ intercalateChar c L → x = c ∨ ∃ l ∈ L, x ∈ l := by
  intro L
  induction L with
  | nil =>
    intro h
    simp [intercalateChar] at h
  | cons l ls ih =>
    cases ls with
    | nil =>
      intro h
      exact Or.inr ⟨l, List.mem_cons_self l [], h⟩
    | cons l2 ls2 =>
      intro h
      rcases List.mem_append.mp h with h2 | h2
      · exact Or.inr ⟨l, List.mem_cons_self l _, h2⟩
      · rcases List.mem_cons.mp h2 with h3 | h3
        · exact Or.inl h3
        · rcases ih h3 with h4 | ⟨l3, hl3, hx3⟩
          · exact Or.inl h4
          · exact Or.inr ⟨l3, List.mem_cons.mpr (Or.inr hl3), hx3⟩

/-- Helper: the last element of a separator-joined list of non-empty
pieces is the last element of the final piece. -/
theorem intercalateChar_getLast (c : Char) : ∀ (L : List Str) (l : Str),
    (∀ x ∈ l :: L, x ≠ []) →
    (intercalateChar c (l :: L)).getLast? = ((l :: L).getLast (by simp)).getLast? := by
  intro L
  induction L with
  | nil =>
    intro l _
    rfl
  | cons l2 ls ih =>
    intro l h
    have hi : intercalateChar c (l2 :: ls) ≠ [] :=
      intercalateChar_ne_nil c l2 ls (h l2 (by simp))
    have hstep : (intercalateChar c (l :: l2 :: ls)).getLast?
        = (intercalateChar c (l2 :: ls)).getLast? := by
      show (l ++ c :: intercalateChar c (l2 :: ls)).getLast? = _
      rw [List.getLast?_append]
      rcases hI : intercalateChar c (l2 :: ls) with _ | ⟨i, it⟩
      · exact absurd hI hi
      · rw [List.getLast?_cons_cons]
        rcases hgl : (i :: it).getLast? with _ | g
        · rw [List.getLast?_eq_none_iff] at hgl
          simp at hgl
        · rfl
    rw [hstep, ih l2 (fun x hx => h x (List.mem_cons.mpr (Or.inr hx)))]
    congr 1

/-- Helper: building a chain over a separator-joined list from per-piece
chains and boundary conditions against the separator. -/
theorem chain_intercalateChar {R : Char → Char → Prop} (c : Char) :
    ∀ (L : List Str), (∀ l ∈ L, l ≠ []) → (∀ l ∈ L, List.Chain' R l) →
    (∀ l ∈ L, ∀ x ∈ l.getLast?, R x c) →
    (∀ l ∈ L, ∀ y ∈ l.head?, R c y) →
    List.Chain' R (intercalateChar c L) := by
  intro L
  induction L with
  | nil =>
    intro _ _ _ _
    simp [intercalateChar]
  | cons l ls ih =>
    intro h1 h2 h3 h4
    cases ls with
    | nil => exact h2 l (by simp)
    | cons l2 ls2 =>
      show List.Chain' R (l ++ c :: intercalateChar c (l2 :: ls2))
      rw [List.chain'_append]
      refine ⟨h2 l (by simp), ?_, ?_⟩
      · rw [List.chain'_cons']
        constructor
        · intro y hy
          rw [intercalateChar_head c l2 ls2 (h1 l2 (by simp))] at hy
          exact h4 l2 (by simp) y hy
        · exact ih (fun x hx => h1 x (List.mem_cons.mpr (Or.inr hx)))
            (fun x hx => h2 x (List.mem_cons.mpr (Or.inr hx)))
            (fun x hx => h3 x (List.mem_cons.mpr (Or.inr hx)))
            (fun x hx => h4 x (List.mem_cons.mpr (Or.inr hx)))
      · intro x hx y hy
        simp only [List.head?_cons, Option.mem_def, Option.some.injEq] at hy
        subst hy
        exact h3 l (by simp) x hx

/-- Helper: a kept line is non-empty and at least ten characters long. -/
theorem keepLine_spec {l : Str} (h : keepLine l = true) : l ≠ [] ∧ 10 ≤ l.length := by
  unfold keepLine at h
  by_cases h1 : l = []
  · rw [if_pos h1] at h
    exact absurd h (by simp)
  · rw [if_neg h1] at h
    by_cases h2 : l.length < 10
    · rw [if_pos h2] at h
      exact absurd h (by simp)
    · exact ⟨h1, by omega⟩

/-- Helper: a chain holds when the relation holds between any two members. -/
theorem chain_of_mem {R : Char → Char → Prop} {l : Str}
    (h : ∀ x ∈ l, ∀ y ∈ l, R x y) : List.Chain' R l :=
  (List.pairwise_of_forall_mem_list h).chain'

/-- Helper: every line kept by `_clean_text` has the `GoodLine` shape. -/
theorem cleanLines_good (t : Str) : ∀ l ∈ cleanLines t, GoodLine l := by
  intro l hl
  unfold cleanLines at hl
  obtain ⟨hl2, hkeep⟩ := List.mem_filter.mp hl
  obtain ⟨l0, hl0, hst⟩ := List.mem_map.mp hl2
  subst hst
  refine ⟨strip_idem l0, hkeep, ?_, ?_, ?_⟩
  · intro hmem
    exact splitOnChar_not_mem hl0 (strip_mem hmem)
  · intro hmem
    exact collapseSpaces_no_tab _
      (( List.IsInfix.sublist (splitOnChar_within hl0)).subset (strip_mem hmem))
  · exact chainWithin (collapseSpaces_chain _)
      ((stripWithin l0).trans (splitOnChar_within hl0))

/-- Helper: good lines are non-empty. -/
theorem goodLine_ne_nil {l : Str} (h : GoodLine l) : l ≠ [] :=
  (keepLine_spec h.2.1).1

/-- Helper: every good line passes the PDF cleaner's line filter. -/
theorem pdfKeepLine_of_good {l : Str} (h : GoodLine l) : pdfKeepLine l = true := by
  obtain ⟨hne, hlen⟩ := keepLine_spec h.2.1
  unfold pdfKeepLine
  rw [if_neg hne, if_neg (by omega), if_neg (fun hx => by omega)]

/-- Helper: joining good lines leaves no newline adjacent to whitespace. -/
theorem goodLines_chain_nl {L : List Str} (h : ∀ l ∈ L, GoodLine l) :
    List.Chain' noNlPair (intercalateChar '\n' L) := by
  apply chain_intercalateChar
  · intro l hl
    exact goodLine_ne_nil (h l hl)
  · intro l hl
    apply chain_of_mem
    intro x hx y hy hbad
    rcases hbad.2.2 with he | he
    · exact (h l hl).2.2.1 (he ▸ hx)
    · exact (h l hl).2.2.1 (he ▸ hy)
  · intro l hl x hx hbad
    have h2 := (strip_fixed_ends l (h l hl).1).2 x (Option.mem_def.mp hx)
    rw [h2] at hbad
    exact absurd hbad.1 (by simp)
  · intro l hl y hy hbad
    have h2 := (strip_fixed_ends l (h l hl).1).1 y (Option.mem_def.mp hy)
    rw [h2] at hbad
    exact absurd hbad.2.1 (by simp)

/-- Helper: joining good lines leaves no two adjacent space-or-tab
characters. -/
theorem goodLines_chain_sp {L : List Str} (h : ∀ l ∈ L, GoodLine l) :
    List.Chain' noSpacePair (intercalateChar '\n' L) := by
  apply chain_intercalateChar
  · intro l hl
    exact goodLine_ne_nil (h l hl)
  · intro l hl
    exact (h l hl).2.2.2.2
  · intro l hl x hx hbad
    exact absurd hbad.2 (by decide)
  · intro l hl y hy hbad
    exact absurd hbad.1 (by decide)

/-- Helper: joining good lines introduces no tab. -/
theorem goodLines_no_tab {L : List Str} (h : ∀ l ∈ L, GoodLine l) :
    '\t' ∉ intercalateChar '\n' L := by
  intro hmem
  rcases intercalateChar_mem hmem with he | ⟨l, hl, hx⟩
  · exact absurd he (by decide)
  · exact (h l hl).2.2.2.1 hx

/-- Helper: the join of good lines is a fixed point of `str.strip()`. -/
theorem intercalate_strip_fixed {L : List Str} (h : ∀ l ∈ L, GoodLine l) :
    pythonStrip (intercalateChar '\n' L) = intercalateChar '\n' L := by
  cases L with
  | nil => rfl
  | cons l ls =>
    apply strip_eq_self
    · intro ch hch
      rw [intercalateChar_head _ _ _ (goodLine_ne_nil (h l (by simp)))] at hch
      exact (strip_fixed_ends l (h l (by simp)).1).1 ch hch
    · intro ch hch
      rw [intercalateChar_getLast _ ls l (fun x hx => goodLine_ne_nil (h x hx))] at hch
      have hlst : (l :: ls).getLast (by simp) ∈ l :: ls := List.getLast_mem _
      exact (strip_fixed_ends _ (h _ hlst).1).2 ch hch

/-- Helper: the collapsing substitutions, the newline split and the
per-line strip leave a join of good lines unchanged. -/
theorem pipeline_split {L : List Str} (h : ∀ l ∈ L, GoodLine l) (hL : L ≠ []) :
    ((splitOnChar '\n' (collapseSpaces
        (collapseNewlines (intercalateChar '\n' L)))).map pythonStrip) = L := by
  rw [collapseNewlines_id (goodLines_chain_nl h),
    collapseSpaces_id _ (goodLines_no_tab h) (goodLines_chain_sp h),
    splitOnChar_intercalateChar (fun l hl => (h l hl).2.2.1) hL,
    List.map_congr_left (fun a ha => (h a ha).1), List.map_id']

/-- Helper: `_clean_text`'s line stage recovers a join of good lines. -/
theorem cleanLines_intercalate {L : List Str} (h : ∀ l ∈ L, GoodLine l) :
    cleanLines (intercalateChar '\n' L) = L := by
  cases L with
  | nil => rfl
  | cons l ls =>
    unfold cleanLines
    rw [pipeline_split h (by simp),
      List.filter_eq_self.mpr (fun a ha => (h a ha).2.1)]

/-- Helper: on non-empty input, `_clean_text` is the join of its kept
lines (the final strip is inert because the lines are good). -/
theorem clean_text_eq_intercalate (norm : Str → Str) {text : Str} (ht : text ≠ []) :
    clean_text norm text = intercalateChar '\n' (cleanLines (norm text)) := by
  unfold clean_text
  rw [if_neg ht]
  exact intercalate_strip_fixed (cleanLines_good (norm text))

/-- C10: `_clean_text` is idempotent.  The NFKC normalizer is external
library code; the hypothesis records its one relevant property — that it
fixes every cleaned output (true of NFKC: normalization is idempotent, and
the cleaner only deletes characters at whitespace boundaries that take no
part in composition).  Under it, cleaning an already-cleaned text returns
it unchanged: every emitted line is stripped, filter-stable, and free of
collapsible whitespace, so each stage of the second pass is inert. -/
theorem clean_text_idempotent (norm : Str → Str)
    (hnorm : ∀ s, norm (clean_text norm s) = clean_text norm s) (text : Str) :
    clean_text norm (clean_text norm text) = clean_text norm text := by
  by_cases ht : text = []
  · subst ht
    rfl
  · have hkey := clean_text_eq_intercalate norm ht
    by_cases hs : clean_text norm text = []
    · rw [hs]
      rfl
    · show (if clean_text norm text = [] then [] else
          pythonStrip (intercalateChar '\n'
            (cleanLines (norm (clean_text norm text)))))
        = clean_text norm text
      rw [if_neg hs, hnorm]
      conv_lhs => rw [hkey]
      rw [cleanLines_intercalate (cleanLines_good (norm text)),
        intercalate_strip_fixed (cleanLines_good (norm text)), ← hkey]

/-- C10, witness: idempotence at a concrete input, with the identity
normalizer (the restriction of NFKC to ASCII text). -/
theorem clean_text_idempotent_witness :
    clean_text id (clean_text id
        "  a sample paragraph that is long enough\nok\n\nx  ".data)
      = clean_text id "  a sample paragraph that is long enough\nok\n\nx  ".data :=
  clean_text_idempotent id (fun _ => rfl) _

/-- C3, counterexample: the two cleaning functions disagree on the input
`hello` — the HTML cleaner drops it (shorter than 10 characters) while the
PDF cleaner keeps it (not shorter than 5).  This refutes the claim that
they return the same output on every input. -/
theorem clean_rules_differ_cex :
    clean_text id "hello".data ≠ clean_extracted_text "hello".data := by decide

/-- C3, amended: the two cleaners share the two whitespace-collapsing
substitutions but are not the same function: the HTML cleaner normalizes
Unicode, drops stripped lines shorter than 10 characters and long lines
with a low alphabetic ratio, while the PDF cleaner drops only stripped
lines shorter than 5 characters (plus a page-number rule subsumed by the
length test) and never normalizes.  The PDF cleaner is the weaker filter:
it leaves every output of the HTML cleaner unchanged. -/
theorem pdf_clean_fixes_html_clean (norm : Str → Str) (text : Str) :
    clean_extracted_text (clean_text norm text) = clean_text norm text := by
  by_cases ht : text = []
  · subst ht
    rfl
  · have hkey := clean_text_eq_intercalate norm ht
    by_cases hs : clean_text norm text = []
    · rw [hs]
      rfl
    · show (if clean_text norm text = [] then [] else
          pythonStrip (intercalateChar '\n'
            (((splitOnChar '\n' (collapseSpaces
                (collapseNewlines (clean_text norm text)))).map pythonStrip).filter
              pdfKeepLine)))
        = clean_text norm text
      rw [if_neg hs]
      have hKne : cleanLines (norm text) ≠ [] := by
        intro h0
        apply hs
        rw [hkey, h0]
        rfl
      conv_lhs => rw [hkey]
      rw [pipeline_split (cleanLines_good (norm text)) hKne,
        List.filter_eq_self.mpr
          (fun a ha => pdfKeepLine_of_good (cleanLines_good (norm text) a ha)),
        intercalate_strip_fixed (cleanLines_good (norm text)), ← hkey]

end WheelsUp
